import Mathlib

/-!
Shallow embedding of the YouTube transcript backend (src/app.py) and proofs
about its specification claims.  The embedding covers the video-id extractor
(a backtracking model of the regular expression used by the code), the
transcript formatter with its three named formats and fallback, the
timestamp formatter (Python float arithmetic modelled by exact rationals),
and the transcript HTTP handler.
-/

set_option allowUnsafeReducibility true

attribute [local semireducible] Rat.mul Rat.inv Rat.add Rat.sub Rat.ofScientific

/-- Whitespace test matching the Python regex class of space characters
(the complement of the backslash-S class used by the extractor pattern),
by code point. -/
def isPySpace (c : Char) : Bool :=
  c.toNat = 32 || c.toNat = 9 || c.toNat = 10 || c.toNat = 11 || c.toNat = 12 ||
  c.toNat = 13 || c.toNat = 28 || c.toNat = 29 || c.toNat = 30 || c.toNat = 31 ||
  c.toNat = 133 || c.toNat = 160 || c.toNat = 5760 ||
  (8192 ≤ c.toNat && c.toNat ≤ 8202) ||
  c.toNat = 8232 || c.toNat = 8233 || c.toNat = 8239 || c.toNat = 8287 ||
  c.toNat = 12288

/-- Strip a literal from the front of a character list, returning the rest. -/
def stripPref : List Char → List Char → Option (List Char)
  | [], s => some s
  | _ :: _, [] => none
  | p :: ps, c :: cs => if p = c then stripPref ps cs else none

/-- Leftmost-first choice between two match results (regex alternation and
the two sides of a greedy optional group). -/
def orE (a b : Option String) : Option String :=
  match a with
  | some v => some v
  | none => b

/-- Match a literal, then run the continuation on the remainder. -/
def tryLit (p : List Char) (k : List Char → Option String) (s : List Char) :
    Option String :=
  match stripPref p s with
  | some r => k r
  | none => none

/-- Greedy optional literal group followed by continuation k, with
backtracking: first take the literal, and if the continuation fails
retry without it.  This models a regex group of the form (?:lit)? . -/
def optLit (p : List Char) (k : List Char → Option String) (s : List Char) :
    Option String :=
  orE (tryLit p k s) (k s)

/-- The capture group of the extractor pattern: exactly 11 contiguous
non-whitespace characters. -/
def take11 (s : List Char) : Option String :=
  if (s.take 11).length = 11 && (s.take 11).all (fun c => !isPySpace c) then
    some (String.mk (s.take 11))
  else none

/-- Literal pieces of the pattern in src/app.py line 16. -/
def litHttps : List Char := ['h', 't', 't', 'p', 's', ':', '/', '/']

def litHttp : List Char := ['h', 't', 't', 'p', ':', '/', '/']

def litWww : List Char := ['w', 'w', 'w', '.']

def litYoutube : List Char :=
  ['y', 'o', 'u', 't', 'u', 'b', 'e', '.', 'c', 'o', 'm', '/']

def litYoutuBe : List Char := ['y', 'o', 'u', 't', 'u', '.', 'b', 'e', '/']

def litWatch : List Char := ['w', 'a', 't', 'c', 'h', '?', 'v', '=']

def litEmbed : List Char := ['e', 'm', 'b', 'e', 'd', '/']

def litVslash : List Char := ['v', '/']

def litShorts : List Char := ['s', 'h', 'o', 'r', 't', 's', '/']

def litLive : List Char := ['l', 'i', 'v', 'e', '/']

def litVeq : List Char := ['v', '=']

/-- Innermost tail of the pattern: the capture group. -/
def chain0 : List Char → Option String := take11

/-- Optional group (?:v=)? in front of chain0. -/
def chain1 : List Char → Option String := optLit litVeq chain0

/-- Optional group (?:shorts/)? (second occurrence) in front of chain1. -/
def chain2 : List Char → Option String := optLit litShorts chain1

/-- Optional group (?:embed/)? (second occurrence) in front of chain2. -/
def chain3 : List Char → Option String := optLit litEmbed chain2

/-- Optional group (?:live/)? in front of chain3. -/
def chain4 : List Char → Option String := optLit litLive chain3

/-- Optional group (?:shorts/)? (first occurrence) in front of chain4. -/
def chain5 : List Char → Option String := optLit litShorts chain4

/-- Optional group (?:v/)? in front of chain5. -/
def chain6 : List Char → Option String := optLit litVslash chain5

/-- Optional group (?:embed/)? (first occurrence) in front of chain6. -/
def chain7 : List Char → Option String := optLit litEmbed chain6

/-- The part of the pattern after the mandatory host and slash:
(?:watch?v=)?(?:embed/)?(?:v/)?(?:shorts/)?(?:live/)?(?:embed/)?(?:shorts/)?(?:v=)?
followed by the 11-character capture. -/
def afterHost : List Char → Option String := optLit litWatch chain7

/-- The mandatory host alternation (?:youtube.com|youtu.be) followed by
the mandatory slash, folded into the two literals. -/
def hostAlt (k : List Char → Option String) (s : List Char) : Option String :=
  orE (tryLit litYoutube k s) (tryLit litYoutuBe k s)

/-- The optional scheme group (?:https?://)? with its internal greedy
optional s, expanded to the two full literals in greedy order. -/
def schemeOpt (k : List Char → Option String) (s : List Char) : Option String :=
  orE (tryLit litHttps k s) (orE (tryLit litHttp k s) (k s))

/-- Attempt to match the whole pattern at the start of the given suffix,
returning the captured 11 characters on success. -/
def matchAt : List Char → Option String :=
  schemeOpt (optLit litWww (hostAlt afterHost))

/-- Python re.search over the pattern: try every start position from the
left and return the first successful capture. -/
def searchList : List Char → Option String
  | [] => orE (matchAt []) none
  | c :: rest => orE (matchAt (c :: rest)) (searchList rest)

/-- extract_video_id from src/app.py lines 14-18. -/
def extract_video_id (url : String) : Option String :=
  searchList url.data

/-- Decimal digit character, as produced by Python str on an integer. -/
def digitChar (n : Nat) : Char :=
  if n = 0 then '0' else if n = 1 then '1' else if n = 2 then '2'
  else if n = 3 then '3' else if n = 4 then '4' else if n = 5 then '5'
  else if n = 6 then '6' else if n = 7 then '7' else if n = 8 then '8'
  else '9'

/-- Decimal digits of a natural number, most significant first, with fuel. -/
def natDigitsAux : Nat → Nat → List Char
  | 0, _ => []
  | fuel + 1, n =>
    if n < 10 then [digitChar n]
    else natDigitsAux fuel (n / 10) ++ [digitChar (n % 10)]

/-- Decimal rendering of a natural number (Python str). -/
def natChars (n : Nat) : List Char := natDigitsAux (n + 1) n

/-- Decimal rendering of an integer (Python str). -/
def intChars (i : Int) : List Char :=
  if i < 0 then '-' :: natChars i.natAbs else natChars i.toNat

/-- Left zero padding to a minimum width (Python format specs 02d, 06.3f
and the json key padding never remove characters). -/
def padZeros (w : Nat) (l : List Char) : List Char :=
  List.replicate (w - l.length) '0' ++ l

/-- Python int() applied to a real value: truncation toward zero. -/
def pyTrunc (q : ℚ) : ℤ := if q < 0 then -((-q).floor) else q.floor

/-- Python float modulo with the divisor sign convention, on exact
rationals: a - b * floor (a / b). -/
def pyMod (a b : ℚ) : ℚ := a - b * ((a / b).floor : ℚ)

/-- Round half to even to an integer, the rounding used by Python float
formatting, applied to the exact rational value. -/
def rhe (q : ℚ) : ℤ :=
  if q - (q.floor : ℚ) < 1 / 2 then q.floor
  else if (1 : ℚ) / 2 < q - (q.floor : ℚ) then q.floor + 1
  else if q.floor % 2 = 0 then q.floor else q.floor + 1

/-- The Python format spec 06.3f on a non-negative value: three rounded
decimals, zero padded to a total width of at least six. -/
def fmt06_3 (r : ℚ) : List Char :=
  padZeros 6 (natChars ((rhe (r * 1000)).toNat / 1000) ++
    '.' :: padZeros 3 (natChars ((rhe (r * 1000)).toNat % 1000)))

/-- Python str.replace of the single-character dot by a comma, applied to
the whole string. -/
def charReplace (l : List Char) : List Char :=
  l.map (fun c => if c = '.' then ',' else c)

/-- format_time from src/app.py lines 35-39, with Python float arithmetic
modelled by exact rationals. -/
def format_timeChars (q : ℚ) : List Char :=
  charReplace (padZeros 2 (intChars (pyTrunc (q / 3600))) ++
    ':' :: (padZeros 2 (intChars (pyTrunc (pyMod q 3600 / 60))) ++
      ':' :: fmt06_3 (pyMod q 60)))

/-- format_time as a string-valued function. -/
def format_time (q : ℚ) : String := String.mk (format_timeChars q)

/-- One caption entry with all three fields present (the well-formed data
the formatter receives from the retrieval capability). -/
structure Entry where
  text : String
  start : ℚ
  duration : ℚ

/-- One caption entry as the Python dict the code actually indexes into:
each of the three keys may be absent. -/
structure EntryDict where
  textF : Option String
  startF : Option ℚ
  durationF : Option ℚ

/-- Opening curly brace character. -/
def lbrace : Char := Char.ofNat 123

/-- Closing curly brace character. -/
def rbrace : Char := Char.ofNat 125

/-- Hexadecimal digit character (lowercase, as the json module emits). -/
def hexDigit (n : Nat) : Char :=
  if n < 10 then digitChar n
  else if n = 10 then 'a' else if n = 11 then 'b' else if n = 12 then 'c'
  else if n = 13 then 'd' else if n = 14 then 'e' else 'f'

/-- Four hexadecimal digits of a code unit. -/
def hex4 (n : Nat) : List Char :=
  [hexDigit (n / 4096 % 16), hexDigit (n / 256 % 16),
   hexDigit (n / 16 % 16), hexDigit (n % 16)]

/-- A backslash-u escape for one UTF-16 code unit. -/
def uEscape (n : Nat) : List Char := '\\' :: 'u' :: hex4 n

/-- Escape one character the way Python json.dumps does with its default
ensure ascii setting. -/
def jsonEscapeChar (c : Char) : List Char :=
  if c = '"' then ['\\', '"']
  else if c = '\\' then ['\\', '\\']
  else if c = '\n' then ['\\', 'n']
  else if c = '\r' then ['\\', 'r']
  else if c = '\t' then ['\\', 't']
  else if c.toNat = 8 then ['\\', 'b']
  else if c.toNat = 12 then ['\\', 'f']
  else if c.toNat < 32 then uEscape c.toNat
  else if c.toNat < 127 then [c]
  else if c.toNat < 65536 then uEscape c.toNat
  else uEscape (55296 + (c.toNat - 65536) / 1024) ++
    uEscape (56320 + (c.toNat - 65536) % 1024)

/-- A json string literal for s, double quoted and escaped. -/
def jsonStr (s : String) : List Char :=
  ('"' :: List.flatten (s.data.map jsonEscapeChar)) ++ ['"']

/-- Smallest exponent k, from k upward with the given fuel, such that
q times 10 to the k is an integer. -/
def findExpAux (q : ℚ) : Nat → Nat → Option Nat
  | _, 0 => none
  | k, fuel + 1 =>
    if (q * (10 : ℚ) ^ k).den = 1 then some k else findExpAux q (k + 1) fuel

/-- Decimal rendering of a non-negative rational as Python repr renders
the corresponding float, for values with a short decimal expansion (the
json module renders floats through repr). -/
def floatReprAux (q : ℚ) : List Char :=
  match findExpAux q 0 40 with
  | some 0 => natChars q.num.toNat ++ ['.', '0']
  | some (k + 1) =>
    natChars ((q * (10 : ℚ) ^ (k + 1)).num.toNat / 10 ^ (k + 1)) ++
      '.' :: padZeros (k + 1)
        (natChars ((q * (10 : ℚ) ^ (k + 1)).num.toNat % 10 ^ (k + 1)))
  | none => natChars q.num.natAbs ++ '/' :: natChars q.den

/-- Decimal rendering of a rational as Python repr of the float. -/
def floatRepr (q : ℚ) : List Char :=
  if q < 0 then '-' :: floatReprAux (-q) else floatReprAux q

/-- The key-value pairs of the dict for one entry, in the insertion order
text, start, duration, with the values already rendered. -/
def dictPairs (d : EntryDict) : List (String × List Char) :=
  (match d.textF with
   | some s => [("text", jsonStr s)]
   | none => []) ++
  (match d.startF with
   | some q => [("start", floatRepr q)]
   | none => []) ++
  (match d.durationF with
   | some q => [("duration", floatRepr q)]
   | none => [])

/-- One rendered key-value pair with the default colon-space separator. -/
def renderPairLine (k : String) (v : List Char) : List Char :=
  jsonStr k ++ (':' :: ' ' :: v)

/-- Join rendered pieces with a separator, as str.join does. -/
def joinSep (sep : List Char) : List (List Char) → List Char
  | [] => []
  | [x] => x
  | x :: xs => x ++ sep ++ joinSep sep xs

/-- json.dumps of one entry dict with no indent: comma-space and
colon-space separators on a single line. -/
def dumpObjLine (d : EntryDict) : List Char :=
  (lbrace :: joinSep [',', ' ']
    ((dictPairs d).map (fun kv => renderPairLine kv.1 kv.2))) ++ [rbrace]

/-- json.dumps of the transcript list with no indent (the fallback format
branch of format_transcript). -/
def dumpListLine (l : List EntryDict) : List Char :=
  ('[' :: joinSep [',', ' '] (l.map dumpObjLine)) ++ [']']

/-- json.dumps of one entry dict with indent 2, as nested inside the
transcript list: keys at four spaces, closing brace at two. -/
def dumpObjInd (d : EntryDict) : List Char :=
  if (dictPairs d).isEmpty then [lbrace, rbrace]
  else
    (lbrace :: '\n' :: joinSep [',', '\n']
      ((dictPairs d).map
        (fun kv => [' ', ' ', ' ', ' '] ++ renderPairLine kv.1 kv.2))) ++
      ('\n' :: ' ' :: ' ' :: [rbrace])

/-- json.dumps of the transcript list with indent 2 (the json branch of
format_transcript). -/
def dumpListInd (l : List EntryDict) : List Char :=
  if l.isEmpty then ['[', ']']
  else
    ('[' :: '\n' :: joinSep [',', '\n']
      (l.map (fun d => ' ' :: ' ' :: dumpObjInd d))) ++ ('\n' :: [']'])

/-- The dict a well-formed entry denotes. -/
def entryToDict (e : Entry) : EntryDict :=
  ⟨some e.text, some e.start, some e.duration⟩

/-- One srt block as built by the loop body of format_transcript:
index, newline, start arrow end, newline, text, two newlines. -/
def srtBlock (i : Nat) (e : Entry) : List Char :=
  natChars i ++ '\n' :: (format_timeChars e.start ++
    (' ' :: '-' :: '-' :: '>' :: ' ' :: format_timeChars (e.start + e.duration)) ++
    '\n' :: (e.text.data ++ ['\n', '\n']))

/-- The srt accumulation loop of format_transcript, with the running
string and the 1-based enumerate counter. -/
def srtFold (acc : List Char) (i : Nat) : List Entry → List Char
  | [] => acc
  | e :: es => srtFold (acc ++ srtBlock i e) (i + 1) es

/-- format_transcript from src/app.py lines 20-33, on well-formed entries,
producing the character list of the result. -/
def format_transcriptChars (t : List Entry) (ft : String) : List Char :=
  if ft = "txt" then joinSep ['\n'] (t.map (fun e => e.text.data))
  else if ft = "srt" then srtFold [] 1 t
  else if ft = "json" then dumpListInd (t.map entryToDict)
  else dumpListLine (t.map entryToDict)

/-- format_transcript as a string-valued function. -/
def format_transcript (t : List Entry) (ft : String) : String :=
  String.mk (format_transcriptChars t ft)

/-- format_transcript called without a format argument: the declared
Python default is the txt format. -/
def format_transcript_default (t : List Entry) : String :=
  format_transcript t "txt"

/-- The txt branch of format_transcript on raw dict entries: collect the
text values left to right, failing with a KeyError on the first entry
missing the text key, as the Python list comprehension does. -/
def txtTextsExc : List EntryDict → Except String (List (List Char))
  | [] => .ok []
  | d :: ds =>
    match d.textF with
    | none => .error "KeyError: text"
    | some s =>
      match txtTextsExc ds with
      | .ok l => .ok (s.data :: l)
      | .error e => .error e

/-- The srt loop of format_transcript on raw dict entries, failing with a
KeyError at the first missing key in the access order start, duration,
text of the loop body. -/
def srtFoldExc (acc : List Char) (i : Nat) :
    List EntryDict → Except String (List Char)
  | [] => .ok acc
  | d :: ds =>
    match d.startF with
    | none => .error "KeyError: start"
    | some st =>
      match d.durationF with
      | none => .error "KeyError: duration"
      | some du =>
        match d.textF with
        | none => .error "KeyError: text"
        | some tx =>
          srtFoldExc (acc ++ (natChars i ++ '\n' :: (format_timeChars st ++
            (' ' :: '-' :: '-' :: '>' :: ' ' :: format_timeChars (st + du)) ++
            '\n' :: (tx.data ++ ['\n', '\n'])))) (i + 1) ds

/-- format_transcript on the raw dict entries the retrieval capability
returns, with Python exceptions modelled by the error case. -/
def format_transcript_exc (t : List EntryDict) (ft : String) :
    Except String String :=
  if ft = "txt" then
    match txtTextsExc t with
    | .ok l => .ok (String.mk (joinSep ['\n'] l))
    | .error e => .error e
  else if ft = "srt" then
    match srtFoldExc [] 1 t with
    | .ok l => .ok (String.mk l)
    | .error e => .error e
  else if ft = "json" then .ok (String.mk (dumpListInd t))
  else .ok (String.mk (dumpListLine t))

/-- The failure kinds of the retrieval capability that the handler
distinguishes. -/
inductive FetchErr where
  | noTranscriptFound
  | transcriptsDisabled
  | videoUnavailable
  | unknownErr (msg : String)
deriving DecidableEq

/-- The outcome of the external retrieval call. -/
inductive FetchOutcome where
  | ok (t : List EntryDict)
  | err (e : FetchErr)

/-- An HTTP response body: either a payload with a mimetype, or a json
object of string fields (jsonify). -/
inductive HttpBody where
  | payload (s : String) (mimetype : String)
  | jsonObj (fields : List (String × String))
deriving DecidableEq

/-- The /api/transcript handler from src/app.py lines 41-83, as a function
of the query parameters and the retrieval outcome, returning the HTTP
status code and body. -/
def get_transcript (video_url : Option String) (format_q : Option String)
    (outcome : FetchOutcome) : Nat × HttpBody :=
  match video_url with
  | none => (400, .jsonObj [("error", "No video URL provided")])
  | some u =>
    if u = "" then (400, .jsonObj [("error", "No video URL provided")])
    else
      match extract_video_id u with
      | none => (400, .jsonObj [("error", "Invalid YouTube URL")])
      | some vid =>
        if vid = "" then (400, .jsonObj [("error", "Invalid YouTube URL")])
        else
          match outcome with
          | .ok t =>
            match format_transcript_exc t (format_q.getD "json") with
            | .ok s =>
              if format_q.getD "json" = "txt" then
                (200, .payload s "text/plain")
              else if format_q.getD "json" = "srt" then
                (200, .payload s "text/plain")
              else (200, .payload s "application/json")
            | .error msg =>
              (500, .jsonObj [("error", "An unexpected error occurred"),
                ("details", msg)])
          | .err .noTranscriptFound =>
            (404, .jsonObj [("error", "No transcript found for this video"),
              ("details",
                "The video does not have any available transcripts.")])
          | .err .transcriptsDisabled =>
            (403,
              .jsonObj [("error", "Transcripts are disabled for this video"),
                ("details",
                  "The video owner has disabled transcripts for this content.")])
          | .err .videoUnavailable =>
            (404, .jsonObj [("error", "The video is unavailable"),
              ("details",
                "The requested video could not be accessed. It might be private or deleted.")])
          | .err (.unknownErr msg) =>
            (500, .jsonObj [("error", "An unexpected error occurred"),
              ("details", msg)])

/-- Mathematical mod used by the claim formulas: a mod b is
a - b * floor (a / b). -/
def specMod (a b : ℚ) : ℚ := a - b * ((a / b).floor : ℚ)

/-- The rendering of the remaining seconds described by claim C9: a
six character fixed point SS.mmm value, rounded to three decimals, with
the decimal point replaced by a comma. -/
def specFix (r : ℚ) : List Char :=
  padZeros 2 (natChars ((rhe (r * 1000)).toNat / 1000)) ++
    ',' :: padZeros 3 (natChars ((rhe (r * 1000)).toNat % 1000))

/-- The claim C9 formula for the timestamp: floor hours, floor minutes of
the remainder, remaining seconds in fixed point, all joined with colons
and zero padded. -/
def format_time_spec (q : ℚ) : String :=
  String.mk (padZeros 2 (intChars ((q / 3600).floor)) ++
    ':' :: (padZeros 2 (intChars ((specMod q 3600 / 60).floor)) ++
      ':' :: specFix (specMod q 60)))

/-- The claim C6 description of the txt format: the text fields joined
with newline separators, in sequence order. -/
def joinedTexts : List Entry → List Char
  | [] => []
  | [e] => e.text.data
  | e :: es => e.text.data ++ '\n' :: joinedTexts es

/-- The claim C5 description of one srt block at 1-based index i: an index
line, a timestamps line with the two formatted timestamps joined by the
arrow, the text line, and a blank line. -/
def specSrtBlock (i : Nat) (e : Entry) : List Char :=
  List.flatten [natChars i ++ ['\n'],
    format_timeChars e.start ++
      (' ' :: '-' :: '-' :: '>' :: ' ' :: format_timeChars (e.start + e.duration)) ++
      ['\n'],
    e.text.data ++ ['\n'],
    ['\n']]

/-- The blocks of the srt rendering from a given starting index. -/
def specSrtFrom (i : Nat) : List Entry → List (List Char)
  | [] => []
  | e :: es => specSrtBlock i e :: specSrtFrom (i + 1) es

/-- The claim C4 wording for the fallback format, before amendment: the
full ordered sequence serialized with no extraneous whitespace at all. -/
def jsonMin (t : List Entry) : List Char :=
  ('[' :: joinSep [','] (t.map (fun e =>
    (lbrace :: (jsonStr "text" ++ ':' :: jsonStr e.text ++
      ',' :: jsonStr "start" ++ ':' :: floatRepr e.start ++
      ',' :: jsonStr "duration" ++ ':' :: floatRepr e.duration)) ++ [rbrace]))) ++
    [']']

/-- The amended claim C4 wording for the fallback format: the full ordered
sequence serialized on a single line with comma-space and colon-space
separators. -/
def entryObjLine (e : Entry) : List Char :=
  (lbrace :: (jsonStr "text" ++ (':' :: ' ' :: jsonStr e.text) ++
    (',' :: ' ' :: jsonStr "start") ++ (':' :: ' ' :: floatRepr e.start) ++
    (',' :: ' ' :: jsonStr "duration") ++
    (':' :: ' ' :: floatRepr e.duration))) ++ [rbrace]

/-- The amended claim C4 single line serialization of the sequence. -/
def dumpLineSpec (t : List Entry) : List Char :=
  ('[' :: joinSep [',', ' '] (t.map entryObjLine)) ++ [']']

/-- A dict entry is well formed when all three keys are present. -/
def wellFormed (t : List EntryDict) : Prop :=
  ∀ d ∈ t, d.textF.isSome = true ∧ d.startF.isSome = true ∧
    d.durationF.isSome = true

instance wellFormedDec (t : List EntryDict) : Decidable (wellFormed t) :=
  inferInstanceAs (Decidable (∀ d ∈ t, d.textF.isSome = true ∧
    d.startF.isSome = true ∧ d.durationF.isSome = true))

/-- The entry a well formed dict denotes. -/
def projEntry (d : EntryDict) : Entry :=
  ⟨d.textF.getD "", d.startF.getD 0, d.durationF.getD 0⟩

/-- Substring test: the needle occurs at some position of the haystack. -/
def containsSub (n : List Char) : List Char → Bool
  | [] => (stripPref n []).isSome
  | c :: rest => (stripPref n (c :: rest)).isSome || containsSub n rest

/-- The path segment markers of the extractor pattern that may precede the
captured token after the host. -/
def pathMarkers : List (List Char) :=
  [litWatch, litEmbed, litVslash, litShorts, litLive, litVeq]

/-- The captured token region is not itself consumed by one of the
optional path segment markers of the pattern. -/
def noMarkerPref (s : List Char) : Prop :=
  ∀ m ∈ pathMarkers, stripPref m s = none

instance noMarkerPrefDec (s : List Char) : Decidable (noMarkerPref s) :=
  inferInstanceAs (Decidable (∀ m ∈ pathMarkers, stripPref m s = none))

/-- The recognized markers named by claims C3 and C8. -/
def specMarkers : List (List Char) :=
  [['y', 'o', 'u', 't', 'u', 'b', 'e', '.', 'c', 'o', 'm'],
   ['y', 'o', 'u', 't', 'u', '.', 'b', 'e'],
   litWatch, litEmbed, litVslash, litShorts, litLive]

/-- The ways the optional scheme may appear in a matching URL occurrence:
https, http, or no scheme at all. -/
def schemeOpts : List (List Char) := [litHttps, litHttp, []]

/-- The ways the optional www prefix may appear: present or absent. -/
def wwwOpts : List (List Char) := [litWww, []]

/-- The two mandatory host markers of the pattern, slash included. -/
def hostMarkers : List (List Char) := [litYoutube, litYoutuBe]

/-- The ways a path segment marker may follow the host in a matching
occurrence: one of the six optional groups of the pattern, or none. -/
def segmentOpts : List (List Char) :=
  [litWatch, litEmbed, litVslash, litShorts, litLive, litVeq, []]

theorem stripPref_self_append (p s : List Char) :
    stripPref p (p ++ s) = some s := by
  induction p with
  | nil => rfl
  | cons c ps ih => simp [stripPref, ih]

theorem stripPref_eq_append :
    ∀ {p s r : List Char}, stripPref p s = some r → s = p ++ r
  | [], s, r, h => by simp [stripPref] at h; simp [h]
  | c :: ps, [], r, h => by simp [stripPref] at h
  | c :: ps, d :: ds, r, h => by
    rw [stripPref] at h
    split at h
    · next hcd => rw [← hcd, List.cons_append, ← stripPref_eq_append h]
    · exact absurd h (by simp)

theorem orE_eq_some {a b : Option String} {v : String} :
    orE a b = some v ↔ a = some v ∨ (a = none ∧ b = some v) := by
  cases a <;> simp [orE]

theorem tryLit_pos {P : List Char → Prop} (hP : ∀ p x, P x → P (p ++ x))
    {k : List Char → Option String} (hk : ∀ x v, k x = some v → P x)
    {p s : List Char} {v : String} (h : tryLit p k s = some v) : P s := by
  cases hs : stripPref p s with
  | none => simp [tryLit, hs] at h
  | some r =>
    simp only [tryLit, hs] at h
    rw [stripPref_eq_append hs]
    exact hP p r (hk r v h)

theorem optLit_pos {P : List Char → Prop} (hP : ∀ p x, P x → P (p ++ x))
    {k : List Char → Option String} (hk : ∀ x v, k x = some v → P x)
    {p s : List Char} {v : String} (h : optLit p k s = some v) : P s := by
  rcases orE_eq_some.mp h with h1 | ⟨-, h2⟩
  · exact tryLit_pos hP hk h1
  · exact hk s v h2

theorem hostAlt_pos {P : List Char → Prop} (hP : ∀ p x, P x → P (p ++ x))
    {k : List Char → Option String} (hk : ∀ x v, k x = some v → P x)
    {s : List Char} {v : String} (h : hostAlt k s = some v) : P s := by
  rcases orE_eq_some.mp h with h1 | ⟨-, h2⟩
  · exact tryLit_pos hP hk h1
  · exact tryLit_pos hP hk h2

theorem schemeOpt_pos {P : List Char → Prop} (hP : ∀ p x, P x → P (p ++ x))
    {k : List Char → Option String} (hk : ∀ x v, k x = some v → P x)
    {s : List Char} {v : String} (h : schemeOpt k s = some v) : P s := by
  rcases orE_eq_some.mp h with h1 | ⟨-, h2⟩
  · exact tryLit_pos hP hk h1
  · rcases orE_eq_some.mp h2 with h3 | ⟨-, h4⟩
    · exact tryLit_pos hP hk h3
    · exact hk s v h4

theorem take11_pos_len {s : List Char} {v : String} (h : take11 s = some v) :
    11 ≤ s.length := by
  unfold take11 at h
  split at h
  · next hc =>
    rw [Bool.and_eq_true, decide_eq_true_eq] at hc
    have := hc.1
    rw [List.length_take] at this
    omega
  · exact absurd h (by simp)

theorem afterHost_pos_len {x : List Char} {v : String}
    (h : afterHost x = some v) : 11 ≤ x.length := by
  have hP : ∀ (p x : List Char), 11 ≤ x.length → 11 ≤ (p ++ x).length := by
    intro p x hx; rw [List.length_append]; omega
  have h0 : ∀ (x : List Char) (v : String), chain0 x = some v → 11 ≤ x.length :=
    fun x v h => take11_pos_len h
  have h1 : ∀ (x : List Char) (v : String), chain1 x = some v → 11 ≤ x.length :=
    fun x v h => optLit_pos hP h0 h
  have h2 : ∀ (x : List Char) (v : String), chain2 x = some v → 11 ≤ x.length :=
    fun x v h => optLit_pos hP h1 h
  have h3 : ∀ (x : List Char) (v : String), chain3 x = some v → 11 ≤ x.length :=
    fun x v h => optLit_pos hP h2 h
  have h4 : ∀ (x : List Char) (v : String), chain4 x = some v → 11 ≤ x.length :=
    fun x v h => optLit_pos hP h3 h
  have h5 : ∀ (x : List Char) (v : String), chain5 x = some v → 11 ≤ x.length :=
    fun x v h => optLit_pos hP h4 h
  have h6 : ∀ (x : List Char) (v : String), chain6 x = some v → 11 ≤ x.length :=
    fun x v h => optLit_pos hP h5 h
  have h7 : ∀ (x : List Char) (v : String), chain7 x = some v → 11 ≤ x.length :=
    fun x v h => optLit_pos hP h6 h
  exact optLit_pos hP h7 h

theorem hostAlt_pos_len {k : List Char → Option String}
    (hk : ∀ x v, k x = some v → 11 ≤ x.length)
    {s : List Char} {v : String} (h : hostAlt k s = some v) :
    20 ≤ s.length := by
  rcases orE_eq_some.mp h with h1 | ⟨-, h2⟩
  · cases hs : stripPref litYoutube s with
    | none => simp [tryLit, hs] at h1
    | some r =>
      simp only [tryLit, hs] at h1
      have := hk r v h1
      rw [stripPref_eq_append hs, List.length_append]
      simp only [litYoutube, List.length]
      omega
  · cases hs : stripPref litYoutuBe s with
    | none => simp [tryLit, hs] at h2
    | some r =>
      simp only [tryLit, hs] at h2
      have := hk r v h2
      rw [stripPref_eq_append hs, List.length_append]
      simp only [litYoutuBe, List.length]
      omega

theorem matchAt_pos_len {s : List Char} {v : String}
    (h : matchAt s = some v) : 20 ≤ s.length := by
  have hP : ∀ (p x : List Char), 20 ≤ x.length → 20 ≤ (p ++ x).length := by
    intro p x hx; rw [List.length_append]; omega
  have hHost : ∀ (x : List Char) (v : String),
      hostAlt afterHost x = some v → 20 ≤ x.length :=
    fun x v h => hostAlt_pos_len (fun x v h => afterHost_pos_len h) h
  have hWww : ∀ (x : List Char) (v : String),
      optLit litWww (hostAlt afterHost) x = some v → 20 ≤ x.length :=
    fun x v h => optLit_pos hP hHost h
  exact schemeOpt_pos hP hWww h

theorem searchList_pos_len {s : List Char} {v : String}
    (h : searchList s = some v) : 20 ≤ s.length := by
  induction s with
  | nil =>
    rcases orE_eq_some.mp h with h1 | ⟨-, h2⟩
    · exact matchAt_pos_len h1
    · exact absurd h2 (by simp)
  | cons c rest ih =>
    rcases orE_eq_some.mp h with h1 | ⟨-, h2⟩
    · exact matchAt_pos_len h1
    · have := ih h2
      simp only [List.length]
      omega

theorem contains_of_stripPref {n s : List Char} {r : List Char}
    (h : stripPref n s = some r) : containsSub n s = true := by
  cases s with
  | nil => simp [containsSub, h]
  | cons c cs => simp [containsSub, h]

theorem contains_cons {n : List Char} {c : Char} {rest : List Char}
    (h : containsSub n rest = true) : containsSub n (c :: rest) = true := by
  simp [containsSub, h]

theorem contains_append_left {n : List Char} (a : List Char)
    {s : List Char} (h : containsSub n s = true) :
    containsSub n (a ++ s) = true := by
  induction a with
  | nil => simpa using h
  | cons c cs ih => exact contains_cons ih

theorem stripPref_of_append_needle :
    ∀ {n e s r : List Char}, stripPref (n ++ e) s = some r →
      ∃ r2, stripPref n s = some r2
  | [], e, s, r, _ => ⟨s, rfl⟩
  | c :: ns, e, [], r, h => by simp [stripPref] at h
  | c :: ns, e, d :: ds, r, h => by
    rw [List.cons_append, stripPref] at h
    split at h
    · next hcd =>
      obtain ⟨r2, hr2⟩ := stripPref_of_append_needle h
      exact ⟨r2, by rw [stripPref, if_pos hcd]; exact hr2⟩
    · exact absurd h (by simp)

theorem contains_of_needle_append {n e s : List Char}
    (h : containsSub (n ++ e) s = true) : containsSub n s = true := by
  induction s with
  | nil =>
    simp only [containsSub, Option.isSome_iff_exists] at h ⊢
    obtain ⟨r, hr⟩ := h
    obtain ⟨r2, hr2⟩ := stripPref_of_append_needle hr
    exact ⟨r2, hr2⟩
  | cons c cs ih =>
    simp only [containsSub, Bool.or_eq_true, Option.isSome_iff_exists] at h ⊢
    rcases h with ⟨r, hr⟩ | h2
    · obtain ⟨r2, hr2⟩ := stripPref_of_append_needle hr
      exact Or.inl ⟨r2, hr2⟩
    · exact Or.inr (ih h2)

theorem hostAlt_pos_contains {k : List Char → Option String}
    {s : List Char} {v : String} (h : hostAlt k s = some v) :
    containsSub litYoutube s = true ∨ containsSub litYoutuBe s = true := by
  rcases orE_eq_some.mp h with h1 | ⟨-, h2⟩
  · cases hs : stripPref litYoutube s with
    | none => simp [tryLit, hs] at h1
    | some r => exact Or.inl (contains_of_stripPref hs)
  · cases hs : stripPref litYoutuBe s with
    | none => simp [tryLit, hs] at h2
    | some r => exact Or.inr (contains_of_stripPref hs)

theorem matchAt_pos_contains {s : List Char} {v : String}
    (h : matchAt s = some v) :
    containsSub litYoutube s = true ∨ containsSub litYoutuBe s = true := by
  have hP : ∀ (p x : List Char),
      (containsSub litYoutube x = true ∨ containsSub litYoutuBe x = true) →
      (containsSub litYoutube (p ++ x) = true ∨
        containsSub litYoutuBe (p ++ x) = true) := by
    intro p x hx
    rcases hx with hx | hx
    · exact Or.inl (contains_append_left p hx)
    · exact Or.inr (contains_append_left p hx)
  have hHost : ∀ (x : List Char) (v : String),
      hostAlt afterHost x = some v →
      containsSub litYoutube x = true ∨ containsSub litYoutuBe x = true :=
    fun x v h => hostAlt_pos_contains h
  have hWww : ∀ (x : List Char) (v : String),
      optLit litWww (hostAlt afterHost) x = some v →
      containsSub litYoutube x = true ∨ containsSub litYoutuBe x = true :=
    fun x v h => optLit_pos hP hHost h
  exact schemeOpt_pos hP hWww h

theorem searchList_pos_contains {s : List Char} {v : String}
    (h : searchList s = some v) :
    containsSub litYoutube s = true ∨ containsSub litYoutuBe s = true := by
  induction s with
  | nil =>
    rcases orE_eq_some.mp h with h1 | ⟨-, h2⟩
    · exact matchAt_pos_contains h1
    · exact absurd h2 (by simp)
  | cons c rest ih =>
    rcases orE_eq_some.mp h with h1 | ⟨-, h2⟩
    · exact matchAt_pos_contains h1
    · rcases ih h2 with hx | hx
      · exact Or.inl (contains_cons hx)
      · exact Or.inr (contains_cons hx)

theorem take11_res {s : List Char} {v : String} (h : take11 s = some v) :
    v.length = 11 ∧ v.data.all (fun c => !isPySpace c) = true := by
  unfold take11 at h
  split at h
  · next hc =>
    rw [Bool.and_eq_true, decide_eq_true_eq] at hc
    cases h
    exact ⟨hc.1, hc.2⟩
  · exact absurd h (by simp)

theorem tryLit_res {Q : String → Prop}
    {k : List Char → Option String} (hk : ∀ x v, k x = some v → Q v)
    {p s : List Char} {v : String} (h : tryLit p k s = some v) : Q v := by
  cases hs : stripPref p s with
  | none => simp [tryLit, hs] at h
  | some r =>
    simp only [tryLit, hs] at h
    exact hk r v h

theorem optLit_res {Q : String → Prop}
    {k : List Char → Option String} (hk : ∀ x v, k x = some v → Q v)
    {p s : List Char} {v : String} (h : optLit p k s = some v) : Q v := by
  rcases orE_eq_some.mp h with h1 | ⟨-, h2⟩
  · exact tryLit_res hk h1
  · exact hk s v h2

theorem extract_res {s : String} {v : String}
    (h : extract_video_id s = some v) :
    v.length = 11 ∧ v.data.all (fun c => !isPySpace c) = true := by
  have h0 : ∀ (x : List Char) (v : String), chain0 x = some v →
      v.length = 11 ∧ v.data.all (fun c => !isPySpace c) = true :=
    fun x v h => take11_res h
  have h1 := fun (x : List Char) (v : String)
    (h : chain1 x = some v) => optLit_res h0 h
  have h2 := fun (x : List Char) (v : String)
    (h : chain2 x = some v) => optLit_res h1 h
  have h3 := fun (x : List Char) (v : String)
    (h : chain3 x = some v) => optLit_res h2 h
  have h4 := fun (x : List Char) (v : String)
    (h : chain4 x = some v) => optLit_res h3 h
  have h5 := fun (x : List Char) (v : String)
    (h : chain5 x = some v) => optLit_res h4 h
  have h6 := fun (x : List Char) (v : String)
    (h : chain6 x = some v) => optLit_res h5 h
  have h7 := fun (x : List Char) (v : String)
    (h : chain7 x = some v) => optLit_res h6 h
  have hAH := fun (x : List Char) (v : String)
    (h : afterHost x = some v) => optLit_res h7 h
  have hHost : ∀ (x : List Char) (v : String),
      hostAlt afterHost x = some v →
      v.length = 11 ∧ v.data.all (fun c => !isPySpace c) = true := by
    intro x v h
    rcases orE_eq_some.mp h with hh | ⟨-, hh⟩
    · exact tryLit_res hAH hh
    · exact tryLit_res hAH hh
  have hWww := fun (x : List Char) (v : String)
    (h : optLit litWww (hostAlt afterHost) x = some v) => optLit_res hHost h
  have hMatch : ∀ (x : List Char) (v : String), matchAt x = some v →
      v.length = 11 ∧ v.data.all (fun c => !isPySpace c) = true := by
    intro x v h
    rcases orE_eq_some.mp h with hh | ⟨-, hh⟩
    · exact tryLit_res hWww hh
    · rcases orE_eq_some.mp hh with hh2 | ⟨-, hh2⟩
      · exact tryLit_res hWww hh2
      · exact hWww x v hh2
  unfold extract_video_id at h
  generalize hl : s.data = l at h
  clear hl
  induction l with
  | nil =>
    rcases orE_eq_some.mp h with hh | ⟨-, hh⟩
    · exact hMatch _ _ hh
    · exact absurd hh (by simp)
  | cons c rest ih =>
    rcases orE_eq_some.mp h with hh | ⟨-, hh⟩
    · exact hMatch _ _ hh
    · exact ih hh

theorem optLit_skip {p s : List Char} (k : List Char → Option String)
    (h : stripPref p s = none) : optLit p k s = k s := by
  simp [optLit, tryLit, h, orE]

theorem optLit_take {p x : List Char} {k : List Char → Option String}
    {v : String} (hk : k x = some v) : optLit p k (p ++ x) = some v := by
  simp [optLit, tryLit, stripPref_self_append, hk, orE]

theorem take11_clean {t rest : List Char} (ht : t.length = 11)
    (hns : t.all (fun c => !isPySpace c) = true) :
    take11 (t ++ rest) = some (String.mk t) := by
  have htake : (t ++ rest).take 11 = t := by
    rw [List.take_append_eq_append_take, ← ht]
    simp [List.take_length]
  simp [take11, htake, ht, hns]

theorem chain1_clean {t rest : List Char} (ht : t.length = 11)
    (hns : t.all (fun c => !isPySpace c) = true)
    (hcl : noMarkerPref (t ++ rest)) :
    chain1 (t ++ rest) = some (String.mk t) := by
  rw [chain1, optLit_skip _ (hcl litVeq (by simp [pathMarkers])), chain0]
  exact take11_clean ht hns

theorem chain2_clean {t rest : List Char} (ht : t.length = 11)
    (hns : t.all (fun c => !isPySpace c) = true)
    (hcl : noMarkerPref (t ++ rest)) :
    chain2 (t ++ rest) = some (String.mk t) := by
  rw [chain2, optLit_skip _ (hcl litShorts (by simp [pathMarkers]))]
  exact chain1_clean ht hns hcl

theorem chain3_clean {t rest : List Char} (ht : t.length = 11)
    (hns : t.all (fun c => !isPySpace c) = true)
    (hcl : noMarkerPref (t ++ rest)) :
    chain3 (t ++ rest) = some (String.mk t) := by
  rw [chain3, optLit_skip _ (hcl litEmbed (by simp [pathMarkers]))]
  exact chain2_clean ht hns hcl

theorem chain4_clean {t rest : List Char} (ht : t.length = 11)
    (hns : t.all (fun c => !isPySpace c) = true)
    (hcl : noMarkerPref (t ++ rest)) :
    chain4 (t ++ rest) = some (String.mk t) := by
  rw [chain4, optLit_skip _ (hcl litLive (by simp [pathMarkers]))]
  exact chain3_clean ht hns hcl

theorem chain5_clean {t rest : List Char} (ht : t.length = 11)
    (hns : t.all (fun c => !isPySpace c) = true)
    (hcl : noMarkerPref (t ++ rest)) :
    chain5 (t ++ rest) = some (String.mk t) := by
  rw [chain5, optLit_skip _ (hcl litShorts (by simp [pathMarkers]))]
  exact chain4_clean ht hns hcl

theorem chain6_clean {t rest : List Char} (ht : t.length = 11)
    (hns : t.all (fun c => !isPySpace c) = true)
    (hcl : noMarkerPref (t ++ rest)) :
    chain6 (t ++ rest) = some (String.mk t) := by
  rw [chain6, optLit_skip _ (hcl litVslash (by simp [pathMarkers]))]
  exact chain5_clean ht hns hcl

theorem chain7_clean {t rest : List Char} (ht : t.length = 11)
    (hns : t.all (fun c => !isPySpace c) = true)
    (hcl : noMarkerPref (t ++ rest)) :
    chain7 (t ++ rest) = some (String.mk t) := by
  rw [chain7, optLit_skip _ (hcl litEmbed (by simp [pathMarkers]))]
  exact chain6_clean ht hns hcl

theorem afterHost_clean {t rest : List Char} (ht : t.length = 11)
    (hns : t.all (fun c => !isPySpace c) = true)
    (hcl : noMarkerPref (t ++ rest)) :
    afterHost (t ++ rest) = some (String.mk t) := by
  rw [afterHost, optLit_skip _ (hcl litWatch (by simp [pathMarkers]))]
  exact chain7_clean ht hns hcl

theorem chain1_take {t rest : List Char} (ht : t.length = 11)
    (hns : t.all (fun c => !isPySpace c) = true) :
    chain1 (litVeq ++ (t ++ rest)) = some (String.mk t) := by
  rw [chain1]
  exact optLit_take (show chain0 (t ++ rest) = some (String.mk t) from
    take11_clean ht hns)

theorem chain4_take {t rest : List Char} (ht : t.length = 11)
    (hns : t.all (fun c => !isPySpace c) = true)
    (hcl : noMarkerPref (t ++ rest)) :
    chain4 (litLive ++ (t ++ rest)) = some (String.mk t) := by
  rw [chain4]
  exact optLit_take (chain3_clean ht hns hcl)

theorem chain5_take {t rest : List Char} (ht : t.length = 11)
    (hns : t.all (fun c => !isPySpace c) = true)
    (hcl : noMarkerPref (t ++ rest)) :
    chain5 (litShorts ++ (t ++ rest)) = some (String.mk t) := by
  rw [chain5]
  exact optLit_take (chain4_clean ht hns hcl)

theorem chain6_take {t rest : List Char} (ht : t.length = 11)
    (hns : t.all (fun c => !isPySpace c) = true)
    (hcl : noMarkerPref (t ++ rest)) :
    chain6 (litVslash ++ (t ++ rest)) = some (String.mk t) := by
  rw [chain6]
  exact optLit_take (chain5_clean ht hns hcl)

theorem chain7_take {t rest : List Char} (ht : t.length = 11)
    (hns : t.all (fun c => !isPySpace c) = true)
    (hcl : noMarkerPref (t ++ rest)) :
    chain7 (litEmbed ++ (t ++ rest)) = some (String.mk t) := by
  rw [chain7]
  exact optLit_take (chain6_clean ht hns hcl)

theorem afterHost_watch {t rest : List Char} (ht : t.length = 11)
    (hns : t.all (fun c => !isPySpace c) = true)
    (hcl : noMarkerPref (t ++ rest)) :
    afterHost (litWatch ++ (t ++ rest)) = some (String.mk t) := by
  rw [afterHost]
  exact optLit_take (chain7_clean ht hns hcl)

theorem afterHost_embed {t rest : List Char} (ht : t.length = 11)
    (hns : t.all (fun c => !isPySpace c) = true)
    (hcl : noMarkerPref (t ++ rest)) :
    afterHost (litEmbed ++ (t ++ rest)) = some (String.mk t) := by
  have h1 : stripPref litWatch (litEmbed ++ (t ++ rest)) = none := by
    simp [litWatch, litEmbed, stripPref]
  rw [afterHost, optLit_skip _ h1]
  exact chain7_take ht hns hcl

theorem afterHost_vslash {t rest : List Char} (ht : t.length = 11)
    (hns : t.all (fun c => !isPySpace c) = true)
    (hcl : noMarkerPref (t ++ rest)) :
    afterHost (litVslash ++ (t ++ rest)) = some (String.mk t) := by
  have h1 : stripPref litWatch (litVslash ++ (t ++ rest)) = none := by
    simp [litWatch, litVslash, stripPref]
  have h2 : stripPref litEmbed (litVslash ++ (t ++ rest)) = none := by
    simp [litEmbed, litVslash, stripPref]
  rw [afterHost, optLit_skip _ h1, chain7, optLit_skip _ h2]
  exact chain6_take ht hns hcl

theorem afterHost_shorts {t rest : List Char} (ht : t.length = 11)
    (hns : t.all (fun c => !isPySpace c) = true)
    (hcl : noMarkerPref (t ++ rest)) :
    afterHost (litShorts ++ (t ++ rest)) = some (String.mk t) := by
  have h1 : stripPref litWatch (litShorts ++ (t ++ rest)) = none := by
    simp [litWatch, litShorts, stripPref]
  have h2 : stripPref litEmbed (litShorts ++ (t ++ rest)) = none := by
    simp [litEmbed, litShorts, stripPref]
  have h3 : stripPref litVslash (litShorts ++ (t ++ rest)) = none := by
    simp [litVslash, litShorts, stripPref]
  rw [afterHost, optLit_skip _ h1, chain7, optLit_skip _ h2, chain6,
    optLit_skip _ h3]
  exact chain5_take ht hns hcl

theorem afterHost_live {t rest : List Char} (ht : t.length = 11)
    (hns : t.all (fun c => !isPySpace c) = true)
    (hcl : noMarkerPref (t ++ rest)) :
    afterHost (litLive ++ (t ++ rest)) = some (String.mk t) := by
  have h1 : stripPref litWatch (litLive ++ (t ++ rest)) = none := by
    simp [litWatch, litLive, stripPref]
  have h2 : stripPref litEmbed (litLive ++ (t ++ rest)) = none := by
    simp [litEmbed, litLive, stripPref]
  have h3 : stripPref litVslash (litLive ++ (t ++ rest)) = none := by
    simp [litVslash, litLive, stripPref]
  have h4 : stripPref litShorts (litLive ++ (t ++ rest)) = none := by
    simp [litShorts, litLive, stripPref]
  rw [afterHost, optLit_skip _ h1, chain7, optLit_skip _ h2, chain6,
    optLit_skip _ h3, chain5, optLit_skip _ h4]
  exact chain4_take ht hns hcl

theorem afterHost_veq {t rest : List Char} (ht : t.length = 11)
    (hns : t.all (fun c => !isPySpace c) = true) :
    afterHost (litVeq ++ (t ++ rest)) = some (String.mk t) := by
  have h1 : stripPref litWatch (litVeq ++ (t ++ rest)) = none := by
    simp [litWatch, litVeq, stripPref]
  have h2 : stripPref litEmbed (litVeq ++ (t ++ rest)) = none := by
    simp [litEmbed, litVeq, stripPref]
  have h3 : stripPref litVslash (litVeq ++ (t ++ rest)) = none := by
    simp [litVslash, litVeq, stripPref]
  have h4 : stripPref litShorts (litVeq ++ (t ++ rest)) = none := by
    simp [litShorts, litVeq, stripPref]
  have h5 : stripPref litLive (litVeq ++ (t ++ rest)) = none := by
    simp [litLive, litVeq, stripPref]
  rw [afterHost, optLit_skip _ h1, chain7, optLit_skip _ h2, chain6,
    optLit_skip _ h3, chain5, optLit_skip _ h4, chain4, optLit_skip _ h5,
    chain3, optLit_skip _ h2, chain2, optLit_skip _ h4]
  exact chain1_take ht hns

theorem hostAlt_youtube {x : List Char} {v : String}
    {k : List Char → Option String} (hk : k x = some v) :
    hostAlt k (litYoutube ++ x) = some v := by
  simp [hostAlt, tryLit, stripPref_self_append, hk, orE]

theorem hostAlt_youtuBe {x : List Char} {v : String}
    {k : List Char → Option String} (hk : k x = some v) :
    hostAlt k (litYoutuBe ++ x) = some v := by
  have hno : stripPref litYoutube (litYoutuBe ++ x) = none := by
    simp [litYoutube, litYoutuBe, stripPref]
  simp [hostAlt, tryLit, hno, stripPref_self_append, hk, orE]

theorem schemeOpt_https {x : List Char} {v : String}
    {k : List Char → Option String} (hk : k x = some v) :
    schemeOpt k (litHttps ++ x) = some v := by
  simp [schemeOpt, tryLit, stripPref_self_append, hk, orE]

theorem schemeOpt_http {x : List Char} {v : String}
    {k : List Char → Option String} (hk : k x = some v) :
    schemeOpt k (litHttp ++ x) = some v := by
  have h1 : stripPref litHttps (litHttp ++ x) = none := by
    simp [litHttps, litHttp, stripPref]
  simp [schemeOpt, tryLit, h1, stripPref_self_append, hk, orE]

theorem schemeOpt_skip {x : List Char} {v : String} {c : Char}
    {k : List Char → Option String} (hc : c ≠ 'h')
    (hk : k (c :: x) = some v) : schemeOpt k (c :: x) = some v := by
  have hc2 : ¬ ('h' = c) := fun h => hc h.symm
  have h1 : stripPref litHttps (c :: x) = none := by
    simp [litHttps, stripPref, hc2]
  have h2 : stripPref litHttp (c :: x) = none := by
    simp [litHttp, stripPref, hc2]
  simp [schemeOpt, tryLit, h1, h2, hk, orE]

theorem wwwSkip {x : List Char} {v : String} {c : Char}
    {k : List Char → Option String} (hc : c ≠ 'w')
    (hk : k (c :: x) = some v) :
    optLit litWww k (c :: x) = some v := by
  have hc2 : ¬ ('w' = c) := fun h => hc h.symm
  have hno : stripPref litWww (c :: x) = none := by
    simp [litWww, stripPref, hc2]
  rw [optLit_skip _ hno]
  exact hk

theorem searchList_of_matchAt {s : List Char} {v : String}
    (h : matchAt s = some v) : searchList s = some v := by
  cases s with
  | nil => simp [searchList, h, orE]
  | cons c rest => simp [searchList, h, orE]

theorem searchList_first : ∀ (pre u : List Char) {v : String},
    (∀ n, n < pre.length → matchAt (pre.drop n ++ u) = none) →
    matchAt u = some v → searchList (pre ++ u) = some v
  | [], u, v, _, hu => by simpa using searchList_of_matchAt hu
  | c :: ps, u, v, hpre, hu => by
    have h0 : matchAt (c :: (ps ++ u)) = none := by
      have := hpre 0 (by simp)
      simpa using this
    have hrec := searchList_first ps u (fun n hn => by
      have := hpre (n + 1) (by simpa using Nat.succ_lt_succ hn)
      simpa using this) hu
    rw [List.cons_append]
    show orE (matchAt (c :: (ps ++ u))) (searchList (ps ++ u)) = some v
    rw [h0]
    exact hrec

/-- Claim C3, counterexample to the claim as stated: first, the string
consisting of the recognized marker watch?v= immediately followed by the
11-character non-whitespace token dQw4w9WgXcQ extracts nothing, because
the pattern demands a youtube.com or youtu.be host before the path
markers; second, even behind a host, a token that itself starts with a
path marker is re-segmented: after watch?v= the first 11 non-whitespace
characters are embed/embed, yet the code returns embedXXXXXX instead of
that token. -/
theorem extract_video_id_bare_marker_counterexample :
    stripPref litWatch "watch?v=dQw4w9WgXcQ".data = some "dQw4w9WgXcQ".data ∧
    ("dQw4w9WgXcQ" : String).length = 11 ∧
    "dQw4w9WgXcQ".data.all (fun c => !isPySpace c) = true ∧
    extract_video_id "watch?v=dQw4w9WgXcQ" = none ∧
    ("embed/embed" : String).length = 11 ∧
    "embed/embed".data.all (fun c => !isPySpace c) = true ∧
    extract_video_id "https://www.youtube.com/watch?v=embed/embedXXXXXXZ" =
      some "embedXXXXXX" ∧
    ("embedXXXXXX" : String) ≠ "embed/embed" := by decide

/-- Claim C3 (amended): for every string containing an occurrence of the
pattern — an optional scheme (https or http), an optional www prefix, a
mandatory youtube.com or youtu.be host marker with its slash, optionally
one of the path segment markers (watch?v=, embed/, v/, shorts/, live/ or
v=) — immediately followed by an 11-character non-whitespace token that
does not itself begin with one of the path segment markers,
extract_video_id returns exactly that token, taken at the first position
of the string where the pattern matches (the hypothesis on the prefix
says no earlier position matches); a path marker alone, without a host
marker, never matches. In particular both example URLs yield
dQw4w9WgXcQ. -/
theorem extract_video_id_marker_correct
    (pre sch w h m t rest : List Char)
    (hsch : sch ∈ schemeOpts) (hw : w ∈ wwwOpts) (hh : h ∈ hostMarkers)
    (hm : m ∈ segmentOpts)
    (ht : t.length = 11) (hns : t.all (fun c => !isPySpace c) = true)
    (hcl : noMarkerPref (t ++ rest))
    (hfirst : ∀ n, n < pre.length →
      matchAt (pre.drop n ++ (sch ++ (w ++ (h ++ (m ++ (t ++ rest)))))) =
        none) :
    extract_video_id (String.mk
        (pre ++ (sch ++ (w ++ (h ++ (m ++ (t ++ rest))))))) =
      some (String.mk t) ∧
    extract_video_id "https://www.youtube.com/watch?v=dQw4w9WgXcQ" =
      some "dQw4w9WgXcQ" ∧
    extract_video_id "https://youtu.be/dQw4w9WgXcQ" = some "dQw4w9WgXcQ" := by
  refine ⟨?_, by decide, by decide⟩
  have hAH : afterHost (m ++ (t ++ rest)) = some (String.mk t) := by
    simp only [segmentOpts, List.mem_cons, List.mem_singleton,
      List.not_mem_nil, or_false] at hm
    rcases hm with rfl | rfl | rfl | rfl | rfl | rfl | rfl
    · exact afterHost_watch ht hns hcl
    · exact afterHost_embed ht hns hcl
    · exact afterHost_vslash ht hns hcl
    · exact afterHost_shorts ht hns hcl
    · exact afterHost_live ht hns hcl
    · exact afterHost_veq ht hns
    · simpa using afterHost_clean ht hns hcl
  have hHost : hostAlt afterHost (h ++ (m ++ (t ++ rest))) =
      some (String.mk t) := by
    simp only [hostMarkers, List.mem_cons, List.mem_singleton,
      List.not_mem_nil, or_false] at hh
    rcases hh with rfl | rfl
    · exact hostAlt_youtube hAH
    · exact hostAlt_youtuBe hAH
  have hWww : optLit litWww (hostAlt afterHost)
      (w ++ (h ++ (m ++ (t ++ rest)))) = some (String.mk t) := by
    simp only [wwwOpts, List.mem_cons, List.mem_singleton,
      List.not_mem_nil, or_false] at hw
    rcases hw with rfl | rfl
    · exact optLit_take hHost
    · simp only [hostMarkers, List.mem_cons, List.mem_singleton,
        List.not_mem_nil, or_false] at hh
      rcases hh with rfl | rfl
      · simp only [List.nil_append]
        exact wwwSkip (by decide) hHost
      · simp only [List.nil_append]
        exact wwwSkip (by decide) hHost
  have hMatch : matchAt (sch ++ (w ++ (h ++ (m ++ (t ++ rest))))) =
      some (String.mk t) := by
    simp only [schemeOpts, List.mem_cons, List.mem_singleton,
      List.not_mem_nil, or_false] at hsch
    rcases hsch with rfl | rfl | rfl
    · exact schemeOpt_https hWww
    · exact schemeOpt_http hWww
    · simp only [wwwOpts, List.mem_cons, List.mem_singleton,
        List.not_mem_nil, or_false] at hw
      rcases hw with rfl | rfl
      · simp only [List.nil_append] at hWww ⊢
        exact schemeOpt_skip (by decide) hWww
      · simp only [hostMarkers, List.mem_cons, List.mem_singleton,
          List.not_mem_nil, or_false] at hh
        rcases hh with rfl | rfl
        · simp only [List.nil_append] at hWww ⊢
          exact schemeOpt_skip (by decide) hWww
        · simp only [List.nil_append] at hWww ⊢
          exact schemeOpt_skip (by decide) hWww
  show searchList (pre ++ (sch ++ (w ++ (h ++ (m ++ (t ++ rest)))))) =
    some (String.mk t)
  exact searchList_first pre _ hfirst hMatch

/-- Witness for the amended claim C3 at a shape not covered by the
anchors: the pattern occurs mid-string, with no scheme, a www prefix, the
youtube.com host and the shorts marker before the token. -/
theorem extract_video_id_marker_correct_witness :
    extract_video_id (String.mk (['x', ' '] ++ ([] ++ (litWww ++
        (litYoutube ++ (litShorts ++ ("dQw4w9WgXcQ".data ++ []))))))) =
      some (String.mk "dQw4w9WgXcQ".data) :=
  (extract_video_id_marker_correct ['x', ' '] [] litWww litYoutube litShorts
    "dQw4w9WgXcQ".data [] (by decide) (by decide) (by decide) (by decide)
    (by decide) (by decide) (by decide) (by decide)).1

/-- Claim C8: a string containing none of the recognized markers never
yields an identifier; a bare 11-character token fails; any string shorter
than the 20 characters of the shortest host marker plus token fails. -/
theorem extract_video_id_no_marker_fails :
    (∀ s : String, (∀ m ∈ specMarkers, containsSub m s.data = false) →
      extract_video_id s = none) ∧
    extract_video_id "dQw4w9WgXcQ" = none ∧
    (∀ s : String, s.length < 20 → extract_video_id s = none) := by
  refine ⟨?_, by decide, ?_⟩
  · intro s hm
    cases hx : extract_video_id s with
    | none => rfl
    | some v =>
      exfalso
      have hx2 : searchList s.data = some v := hx
      have hyt : containsSub
          ['y', 'o', 'u', 't', 'u', 'b', 'e', '.', 'c', 'o', 'm'] s.data =
          false := hm _ (by simp [specMarkers])
      have hyb : containsSub
          ['y', 'o', 'u', 't', 'u', '.', 'b', 'e'] s.data = false :=
        hm _ (by simp [specMarkers])
      rcases searchList_pos_contains hx2 with hc | hc
      · have h1 : containsSub
            (['y', 'o', 'u', 't', 'u', 'b', 'e', '.', 'c', 'o', 'm'] ++
              ['/']) s.data = true := hc
        have h2 := contains_of_needle_append h1
        rw [h2] at hyt
        exact Bool.noConfusion hyt
      · have h1 : containsSub
            (['y', 'o', 'u', 't', 'u', '.', 'b', 'e'] ++ ['/']) s.data =
            true := hc
        have h2 := contains_of_needle_append h1
        rw [h2] at hyb
        exact Bool.noConfusion hyb
  · intro s hlen
    cases hx : extract_video_id s with
    | none => rfl
    | some v =>
      exfalso
      have hx2 : searchList s.data = some v := hx
      have h20 := searchList_pos_len hx2
      have hsl : s.length = s.data.length := rfl
      omega

/-- Witness for claim C8 at two concrete marker-free inputs. -/
theorem extract_video_id_no_marker_fails_witness :
    extract_video_id "hello world" = none ∧ extract_video_id "ab" = none :=
  ⟨extract_video_id_no_marker_fails.1 "hello world" (by decide),
   extract_video_id_no_marker_fails.2.2 "ab" (by decide)⟩

/-- Claim C10: every successful extraction returns exactly 11 characters,
none of them whitespace, and no further character set validation happens:
the concrete conjunct extracts a token containing a question mark, an
ampersand and a slash. -/
theorem extract_video_id_token_shape :
    (∀ (s v : String), extract_video_id s = some v →
      v.length = 11 ∧ v.data.all (fun c => !isPySpace c) = true) ∧
    extract_video_id "https://youtube.com/?&/abcdefgh" = some "?&/abcdefgh" :=
  ⟨fun _ _ h => extract_res h, by decide⟩

/-- Witness for claim C10 at a concrete successful extraction. -/
theorem extract_video_id_token_shape_witness :
    ("dQw4w9WgXcQ" : String).length = 11 ∧
    "dQw4w9WgXcQ".data.all (fun c => !isPySpace c) = true :=
  extract_video_id_token_shape.1 "https://youtu.be/dQw4w9WgXcQ" "dQw4w9WgXcQ"
    (by decide)

theorem joinSep_newline_texts (t : List Entry) :
    joinSep ['\n'] (t.map (fun e => e.text.data)) = joinedTexts t := by
  induction t with
  | nil => rfl
  | cons e es ih =>
    cases es with
    | nil => rfl
    | cons e2 es2 =>
      simp only [List.map_cons, joinSep, joinedTexts]
      rw [← ih]
      simp [joinSep, List.append_assoc]

/-- Claim C6: the txt rendering is the text fields joined with newline
separators in sequence order, and the empty transcript renders to the
empty string. -/
theorem format_transcript_txt_joined :
    (∀ t : List Entry,
      format_transcript t "txt" = String.mk (joinedTexts t)) ∧
    format_transcript [] "txt" = "" := by
  constructor
  · intro t
    show String.mk (format_transcriptChars t "txt") = _
    rw [format_transcriptChars, if_pos rfl, joinSep_newline_texts]
  · decide

theorem srtFold_spec : ∀ (t : List Entry) (acc : List Char) (i : Nat),
    srtFold acc i t = acc ++ List.flatten (specSrtFrom i t)
  | [], acc, i => by simp [srtFold, specSrtFrom]
  | e :: es, acc, i => by
    rw [srtFold, srtFold_spec es _ _, specSrtFrom]
    simp [srtBlock, specSrtBlock, List.append_assoc]

theorem specSrtFrom_length : ∀ (i : Nat) (t : List Entry),
    (specSrtFrom i t).length = t.length
  | _, [] => rfl
  | i, _ :: es => by
    simp only [specSrtFrom, List.length_cons, specSrtFrom_length (i + 1) es]

/-- Claim C5: the srt rendering is exactly one block per entry,
concatenated in order, the block at 1-based index i being the index line,
the two formatted timestamps joined by the arrow, the text line, and a
blank line. -/
theorem format_transcript_srt_blocks (t : List Entry) :
    format_transcript t "srt" = String.mk (List.flatten (specSrtFrom 1 t)) ∧
    (specSrtFrom 1 t).length = t.length := by
  constructor
  · show String.mk (format_transcriptChars t "srt") = _
    rw [format_transcriptChars, if_neg (by decide), if_pos rfl,
      srtFold_spec t [] 1]
    rfl
  · exact specSrtFrom_length 1 t

theorem dumpObjLine_entry (e : Entry) :
    dumpObjLine (entryToDict e) = entryObjLine e := by
  simp [dumpObjLine, dictPairs, entryToDict, renderPairLine, entryObjLine,
    joinSep, List.append_assoc]

theorem dumpListLine_spec (t : List Entry) :
    dumpListLine (t.map entryToDict) = dumpLineSpec t := by
  rw [dumpListLine, dumpLineSpec, List.map_map]
  have : (dumpObjLine ∘ entryToDict) = entryObjLine := by
    funext e
    exact dumpObjLine_entry e
  rw [this]

/-- Claim C4, counterexample to the claim as stated: on a one-entry
transcript the no-argument default of format_transcript is the plain text
rendering hi, not any serialization of the sequence, and the fallback
rendering for the unrecognized format xml contains a space character
although the entry text has none, so it is not a no-extraneous-whitespace
serialization. -/
theorem format_transcript_default_counterexample :
    format_transcript_default [⟨"hi", 0, 1⟩] = "hi" ∧
    containsSub [' '] (format_transcriptChars [⟨"hi", 0, 1⟩] "xml") = true ∧
    containsSub [' '] "hi".data = false ∧
    format_transcript [⟨"hi", 0, 1⟩] "xml" ≠
      String.mk (jsonMin [⟨"hi", 0, 1⟩]) ∧
    format_transcript_default [⟨"hi", 0, 1⟩] ≠
      format_transcript [⟨"hi", 0, 1⟩] "xml" := by decide

/-- Claim C4 (amended): a format type outside txt, srt, json falls back,
without an error, to the single line serialization of the full ordered
sequence with comma-space and colon-space separators (the json.dumps
default), and the no-argument default of format_transcript is the txt
rendering, not the fallback serialization. -/
theorem format_transcript_fallback_correct (t : List Entry) (ft : String)
    (h1 : ft ≠ "txt") (h2 : ft ≠ "srt") (h3 : ft ≠ "json") :
    format_transcript t ft = String.mk (dumpLineSpec t) ∧
    format_transcript_default t = format_transcript t "txt" := by
  constructor
  · show String.mk (format_transcriptChars t ft) = _
    rw [format_transcriptChars, if_neg h1, if_neg h2, if_neg h3,
      dumpListLine_spec]
  · rfl

/-- Witness for the amended claim C4 at a concrete transcript and the
unrecognized format xml. -/
theorem format_transcript_fallback_correct_witness :
    format_transcript [⟨"hi", 0, 1⟩] "xml" =
      String.mk (dumpLineSpec [⟨"hi", 0, 1⟩]) ∧
    format_transcript_default [⟨"hi", 0, 1⟩] =
      format_transcript [⟨"hi", 0, 1⟩] "txt" :=
  format_transcript_fallback_correct [⟨"hi", 0, 1⟩] "xml"
    (by decide) (by decide) (by decide)

theorem wellFormed_tail {d : EntryDict} {ds : List EntryDict}
    (h : wellFormed (d :: ds)) : wellFormed ds :=
  fun x hx => h x (List.mem_cons_of_mem d hx)

theorem wellFormed_head {d : EntryDict} {ds : List EntryDict}
    (h : wellFormed (d :: ds)) :
    d.textF.isSome = true ∧ d.startF.isSome = true ∧
      d.durationF.isSome = true :=
  h d (List.mem_cons_self d ds)

theorem roundtrip_wf : ∀ {t : List EntryDict}, wellFormed t →
    (t.map projEntry).map entryToDict = t
  | [], _ => rfl
  | d :: ds, h => by
    obtain ⟨h1, h2, h3⟩ := wellFormed_head h
    cases d with
    | mk tf sf df =>
      cases tf with
      | none => exact absurd h1 (by simp)
      | some a =>
        cases sf with
        | none => exact absurd h2 (by simp)
        | some b =>
          cases df with
          | none => exact absurd h3 (by simp)
          | some c =>
            simp only [List.map_cons, roundtrip_wf (wellFormed_tail h)]
            rfl

theorem txtTextsExc_wf : ∀ {t : List EntryDict}, wellFormed t →
    txtTextsExc t = .ok ((t.map projEntry).map (fun e => e.text.data))
  | [], _ => rfl
  | d :: ds, h => by
    obtain ⟨h1, -, -⟩ := wellFormed_head h
    cases htf : d.textF with
    | none => rw [htf] at h1; exact absurd h1 (by simp)
    | some a =>
      rw [txtTextsExc, htf, txtTextsExc_wf (wellFormed_tail h)]
      simp [projEntry, htf]

theorem srtFoldExc_wf : ∀ (t : List EntryDict) (acc : List Char) (i : Nat),
    wellFormed t →
    srtFoldExc acc i t = .ok (srtFold acc i (t.map projEntry))
  | [], acc, i, _ => rfl
  | d :: ds, acc, i, h => by
    obtain ⟨h1, h2, h3⟩ := wellFormed_head h
    cases htf : d.textF with
    | none => rw [htf] at h1; exact absurd h1 (by simp)
    | some a =>
      cases hsf : d.startF with
      | none => rw [hsf] at h2; exact absurd h2 (by simp)
      | some b =>
        cases hdf : d.durationF with
        | none => rw [hdf] at h3; exact absurd h3 (by simp)
        | some c =>
          simp only [srtFoldExc, htf, hsf, hdf]
          rw [srtFoldExc_wf ds _ (i + 1) (wellFormed_tail h)]
          simp [srtFold, srtBlock, projEntry, htf, hsf, hdf]

/-- Claim C7: on a well formed transcript, with every entry carrying all
three fields, format_transcript never fails, whatever the format string
and however long the transcript, and agrees with the total formatter on
the projected entries. -/
theorem format_transcript_total_ok (t : List EntryDict) (ft : String)
    (h : wellFormed t) :
    format_transcript_exc t ft =
      .ok (format_transcript (t.map projEntry) ft) := by
  by_cases h1 : ft = "txt"
  · subst h1
    rw [format_transcript_exc, if_pos rfl, txtTextsExc_wf h]
    show Except.ok _ = Except.ok (String.mk (format_transcriptChars _ "txt"))
    rw [format_transcriptChars, if_pos rfl]
  · by_cases h2 : ft = "srt"
    · subst h2
      rw [format_transcript_exc, if_neg h1, if_pos rfl,
        srtFoldExc_wf t [] 1 h]
      show Except.ok _ = Except.ok (String.mk (format_transcriptChars _ "srt"))
      rw [format_transcriptChars, if_neg h1, if_pos rfl]
    · by_cases h3 : ft = "json"
      · subst h3
        rw [format_transcript_exc, if_neg h1, if_neg h2, if_pos rfl]
        show Except.ok _ =
          Except.ok (String.mk (format_transcriptChars _ "json"))
        rw [format_transcriptChars, if_neg h1, if_neg h2, if_pos rfl,
          roundtrip_wf h]
      · rw [format_transcript_exc, if_neg h1, if_neg h2, if_neg h3]
        show Except.ok _ = Except.ok (String.mk (format_transcriptChars _ ft))
        rw [format_transcriptChars, if_neg h1, if_neg h2, if_neg h3,
          roundtrip_wf h]

/-- Witness for claim C7 at a concrete well formed dict transcript, an
unrecognized format string, and the empty transcript. -/
theorem format_transcript_total_ok_witness :
    format_transcript_exc [⟨some "hi", some 0, some 1⟩] "xml" =
      .ok (format_transcript
        ([⟨some "hi", some 0, some 1⟩].map projEntry) "xml") ∧
    format_transcript_exc [] "srt" =
      .ok (format_transcript ([].map projEntry) "srt") :=
  ⟨format_transcript_total_ok [⟨some "hi", some 0, some 1⟩] "xml"
      (by decide),
   format_transcript_total_ok [] "srt" (by decide)⟩

theorem ratFloor_eq (q : ℚ) : q.floor = ⌊q⌋ := by
  rw [Rat.floor_def', ← Rat.floor_def]

theorem pyTrunc_of_nonneg {q : ℚ} (h : 0 ≤ q) : pyTrunc q = q.floor := by
  rw [pyTrunc, if_neg (not_lt.mpr h)]

theorem pyMod_eq_fract (a : ℚ) {b : ℚ} (hb : 0 < b) :
    pyMod a b = b * Int.fract (a / b) := by
  rw [pyMod, ratFloor_eq, Int.fract, mul_sub, mul_div_cancel₀ a hb.ne']

theorem pyMod_nonneg (a : ℚ) {b : ℚ} (hb : 0 < b) : 0 ≤ pyMod a b := by
  rw [pyMod_eq_fract a hb]
  exact mul_nonneg hb.le (Int.fract_nonneg _)

theorem digitChar_bound (n : Nat) :
    48 ≤ (digitChar n).toNat ∧ (digitChar n).toNat ≤ 57 := by
  unfold digitChar
  split_ifs <;> decide

theorem natDigitsAux_bound :
    ∀ (fuel n : Nat), ∀ c ∈ natDigitsAux fuel n,
      48 ≤ c.toNat ∧ c.toNat ≤ 57
  | 0, _, c, hc => by simp [natDigitsAux] at hc
  | fuel + 1, n, c, hc => by
    rw [natDigitsAux] at hc
    split at hc
    · rw [List.mem_singleton] at hc
      rw [hc]
      exact digitChar_bound n
    · rcases List.mem_append.mp hc with h | h
      · exact natDigitsAux_bound fuel (n / 10) c h
      · rw [List.mem_singleton] at h
        rw [h]
        exact digitChar_bound (n % 10)

theorem natChars_bound (n : Nat) : ∀ c ∈ natChars n,
    48 ≤ c.toNat ∧ c.toNat ≤ 57 :=
  natDigitsAux_bound (n + 1) n

theorem charReplace_of_digits {l : List Char}
    (h : ∀ c ∈ l, 48 ≤ c.toNat ∧ c.toNat ≤ 57) : charReplace l = l := by
  induction l with
  | nil => rfl
  | cons c cs ih =>
    have hc := h c (List.mem_cons_self c cs)
    have hdot : Char.toNat '.' = 46 := by decide
    rw [charReplace, List.map_cons]
    have : (if c = '.' then ',' else c) = c := by
      rw [if_neg]
      rintro rfl
      omega
    rw [this]
    exact congrArg (c :: ·) (ih (fun x hx => h x (List.mem_cons_of_mem c hx)))

theorem charReplace_append (a b : List Char) :
    charReplace (a ++ b) = charReplace a ++ charReplace b :=
  List.map_append _ a b

theorem charReplace_pad_digits (w n : Nat) :
    charReplace (padZeros w (natChars n)) = padZeros w (natChars n) := by
  apply charReplace_of_digits
  intro c hc
  rcases List.mem_append.mp hc with h | h
  · rw [List.eq_of_mem_replicate h]
    decide
  · exact natChars_bound n c h

set_option maxRecDepth 10000 in
theorem digits_le_three : ∀ n, n < 1000 → (natChars n).length ≤ 3 := by decide

theorem padZeros_shift (A B : List Char) (c : Char) (hB : B.length = 3) :
    padZeros 6 (A ++ c :: B) = padZeros 2 A ++ c :: B := by
  simp only [padZeros, List.length_append, List.length_cons, hB,
    List.append_assoc]
  have harith : 6 - (A.length + (3 + 1)) = 2 - A.length := by omega
  rw [harith]

theorem charReplace_fmt (n : Nat) :
    charReplace (padZeros 6 (natChars (n / 1000) ++
        '.' :: padZeros 3 (natChars (n % 1000)))) =
      padZeros 2 (natChars (n / 1000)) ++
        ',' :: padZeros 3 (natChars (n % 1000)) := by
  have hB : (padZeros 3 (natChars (n % 1000))).length = 3 := by
    have hd := digits_le_three (n % 1000) (Nat.mod_lt _ (by norm_num))
    simp only [padZeros, List.length_append, List.length_replicate]
    omega
  rw [padZeros_shift _ _ _ hB, charReplace_append, charReplace_pad_digits]
  have hdotrep : charReplace ('.' :: padZeros 3 (natChars (n % 1000))) =
      ',' :: padZeros 3 (natChars (n % 1000)) := by
    rw [charReplace, List.map_cons, if_pos rfl]
    exact congrArg (',' :: ·) (charReplace_pad_digits 3 (n % 1000))
  rw [hdotrep]

theorem specMod_eq : specMod = pyMod := rfl

theorem intChars_of_nonneg {i : ℤ} (h : 0 ≤ i) :
    intChars i = natChars i.toNat := by
  rw [intChars, if_neg (not_lt.mpr h)]

theorem charReplace_colon (l : List Char) :
    charReplace (':' :: l) = ':' :: charReplace l := by
  rw [charReplace, List.map_cons, if_neg (by decide)]
  rfl

theorem charReplace_fmt06 (r : ℚ) :
    charReplace (fmt06_3 r) = specFix r := by
  rw [fmt06_3, specFix]
  exact charReplace_fmt _

/-- Claim C1: the code is expected not to leave a seconds field of 60,000
uncarried, but at the failing input 59.9996 (whose remaining seconds
round up to 60.000) format_time renders exactly 00:00:60,000 with no
carry into minutes. -/
theorem format_time_carry_failing :
    format_time (59.9996 : ℚ) = "00:00:60,000" := by decide

/-- Claim C9: on every non-negative input, format_time agrees with the
claim formula of floor hours, floor minutes of the remainder modulo 3600,
and the remaining seconds modulo 60 rendered as a six character fixed
point value with the decimal point turned into a comma; with the two
anchor evaluations of the claim. -/
theorem format_time_matches_spec :
    (∀ q : ℚ, 0 ≤ q → format_time q = format_time_spec q) ∧
    format_time 0 = "00:00:00,000" ∧
    format_time (3661.5 : ℚ) = "01:01:01,500" := by
  refine ⟨?_, by decide, by decide⟩
  intro q hq
  have h3600 : (0 : ℚ) < 3600 := by norm_num
  have h60 : (0 : ℚ) < 60 := by norm_num
  have hdiv : (0 : ℚ) ≤ q / 3600 := div_nonneg hq h3600.le
  have hmindiv : (0 : ℚ) ≤ pyMod q 3600 / 60 :=
    div_nonneg (pyMod_nonneg q h3600) h60.le
  have hH : 0 ≤ (q / 3600).floor := by
    rw [ratFloor_eq]
    exact Int.floor_nonneg.mpr hdiv
  have hM : 0 ≤ (pyMod q 3600 / 60).floor := by
    rw [ratFloor_eq]
    exact Int.floor_nonneg.mpr hmindiv
  have hX : charReplace (padZeros 2 (intChars ((q / 3600).floor))) =
      padZeros 2 (intChars ((q / 3600).floor)) := by
    rw [intChars_of_nonneg hH]
    exact charReplace_pad_digits 2 _
  have hY : charReplace (padZeros 2 (intChars ((pyMod q 3600 / 60).floor))) =
      padZeros 2 (intChars ((pyMod q 3600 / 60).floor)) := by
    rw [intChars_of_nonneg hM]
    exact charReplace_pad_digits 2 _
  show String.mk (format_timeChars q) = String.mk _
  apply congrArg
  rw [format_timeChars, pyTrunc_of_nonneg hdiv, pyTrunc_of_nonneg hmindiv,
    charReplace_append, hX, charReplace_colon, charReplace_append, hY,
    charReplace_colon, charReplace_fmt06]
  simp only [specMod_eq]

/-- Witness for claim C9 at the concrete input 3661.5 seconds. -/
theorem format_time_matches_spec_witness :
    format_time (3661.5 : ℚ) = format_time_spec (3661.5 : ℚ) :=
  format_time_matches_spec.1 (3661.5 : ℚ) (by decide)

/-- Claim C2, counterexample to the claimed 1:1 mapping: the two distinct
failure kinds NoTranscriptFound and VideoUnavailable are both surfaced
with the same HTTP status 404, so the error kind to status mapping is not
injective. -/
theorem get_transcript_status_counterexample :
    (get_transcript (some "https://youtu.be/dQw4w9WgXcQ") none
      (.err .noTranscriptFound)).1 = 404 ∧
    (get_transcript (some "https://youtu.be/dQw4w9WgXcQ") none
      (.err .videoUnavailable)).1 = 404 ∧
    FetchErr.noTranscriptFound ≠ FetchErr.videoUnavailable := by decide

/-- Claim C2 (amended): for a non-empty URL from which an identifier is
extracted, the three retrieval failure kinds are mapped to statuses 404,
403 and 404 respectively, each with a JSON body holding a human readable
error message and a details field; NoTranscriptFound and VideoUnavailable
share status 404, so the mapping is not injective. -/
theorem get_transcript_error_mapping (u : String) (fq : Option String)
    (hu : u ≠ "") (hex : ∃ v, extract_video_id u = some v) :
    get_transcript (some u) fq (.err .noTranscriptFound) =
      (404, .jsonObj [("error", "No transcript found for this video"),
        ("details", "The video does not have any available transcripts.")]) ∧
    get_transcript (some u) fq (.err .transcriptsDisabled) =
      (403, .jsonObj [("error", "Transcripts are disabled for this video"),
        ("details",
          "The video owner has disabled transcripts for this content.")]) ∧
    get_transcript (some u) fq (.err .videoUnavailable) =
      (404, .jsonObj [("error", "The video is unavailable"),
        ("details",
          "The requested video could not be accessed. It might be private or deleted.")]) := by
  obtain ⟨v, hv⟩ := hex
  have hvne : v ≠ "" := by
    have h11 := (extract_res hv).1
    intro h
    subst h
    exact absurd h11 (by decide)
  refine ⟨?_, ?_, ?_⟩ <;> simp [get_transcript, hu, hv, hvne]

/-- Witness for the amended claim C2 at a concrete URL and the disabled
transcripts failure kind. -/
theorem get_transcript_error_mapping_witness :
    get_transcript (some "https://youtu.be/dQw4w9WgXcQ") none
      (.err .transcriptsDisabled) =
      (403, .jsonObj [("error", "Transcripts are disabled for this video"),
        ("details",
          "The video owner has disabled transcripts for this content.")]) :=
  (get_transcript_error_mapping "https://youtu.be/dQw4w9WgXcQ" none
    (by decide) ⟨"dQw4w9WgXcQ", by decide⟩).2.1

